import Mathlib

/-!
Shallow embedding of the TIDE-analysis core (tide_analyzer.py and the
ANOVA gate of create_scientific_summary.py), with theorems settling the
specification claims about it.

Conventions of the embedding:
* Python dicts are association lists in insertion order; `dict.get`
  is first-binding lookup with a default.
* Python floats are embedded as exact rationals where the code only
  adds, subtracts, multiplies and divides, and as real numbers where a
  square root (cosine similarity, Pearson correlation) is involved.
* Mutation of the input (the `resp['task_type'] = task_type` writes) is
  made explicit by returning the mutated session alongside the result.
-/

namespace TIDE

abbrev Feature := String

/-- A feature dict `{name: score}` as an association list. -/
abbrev FeatureVec := List (Feature × ℚ)

/-- Association-list lookup: the first binding of a key is the dict's
binding (Python dict keys are unique; duplicates are dead bindings). -/
def lookupKey {α : Type} (k : String) : List (String × α) → Option α
  | [] => none
  | p :: rest => if p.1 = k then some p.2 else lookupKey k rest

/-- `features.get(f, 0)` from the source. -/
def fget (fv : FeatureVec) (f : Feature) : ℚ := (lookupKey f fv).getD 0

/-- `self.internal_features` (tide_analyzer.py, `load_dissertation_model`). -/
def internal_features : List Feature :=
  ["social", "emotion", "polarity", "morality", "thought", "self_motion"]

/-- `self.external_features`. -/
def external_features : List Feature := ["space", "time", "number"]

/-- `self.concrete_features`. -/
def concrete_features : List Feature :=
  ["visual", "color", "auditory", "smell_taste", "tactile"]

/-- One response record as built by the collector; `task_type` is the
optional extra key that `calculate_dimensional_shifts` writes. -/
structure Response where
  prompt : String
  text : String
  features : FeatureVec
  pattern : String
  task_type : Option String := none
deriving Repr, DecidableEq

/-- A session's `responses` dict: task-type keys to response lists, in
insertion order (the collector inserts the keys in a shuffled order). -/
structure Session where
  responses : List (String × List Response)
deriving Repr, DecidableEq

/-- `data['responses'][t]` when `t in data['responses']`. -/
def getTask (s : Session) (t : String) : Option (List Response) :=
  lookupKey t s.responses

/-- The fixed canonical iteration order `['concrete', 'internal', 'external']`
hard-coded at every flattening site of the analyzer. -/
def task_types : List String := ["concrete", "internal", "external"]

/-- The `resp['task_type'] = task_type` write applied to a task's list. -/
def tagResponses (t : String) (rs : List Response) : List Response :=
  rs.map fun r => { r with task_type := some t }

/-- The flattening loop of `calculate_dimensional_shifts`: iterate task
types in canonical order, tag each response, concatenate. -/
def flattenResponses (s : Session) : List Response :=
  (task_types.map fun t =>
    match getTask s t with
    | some rs => tagResponses t rs
    | none => []).flatten

/-- `np.mean` of a rational list. Call sites guard emptiness exactly where
the source does; on `[]` this gives `0 / 0 = 0` (NumPy would give NaN). -/
def qmean (l : List ℚ) : ℚ := l.sum / l.length

/-- `np.mean([features.get(f, 0) for f in group])`. -/
def factorScore (fv : FeatureVec) (group : List Feature) : ℚ :=
  qmean (group.map (fget fv))

/-- The `if factor == ...` dispatch of `calculate_factor_shift`. -/
def groupOf (factor : String) : List Feature :=
  if factor = "internal" then internal_features
  else if factor = "external" then external_features
  else concrete_features

/-- `calculate_factor_shift` (tide_analyzer.py lines 101-116). -/
def calculate_factor_shift (before after : FeatureVec) (factor : String) : ℚ :=
  factorScore after (groupOf factor) - factorScore before (groupOf factor)

structure DimensionalShift where
  transition : String
  internal_delta : ℚ
  external_delta : ℚ
  concrete_delta : ℚ
  pattern_change : String
deriving Repr, DecidableEq

/-- The `shift_data` dict built for one adjacent pair. -/
def mkShift (before after : Response) : DimensionalShift :=
  { transition := before.task_type.getD "" ++ " -> " ++ after.task_type.getD ""
    internal_delta := calculate_factor_shift before.features after.features "internal"
    external_delta := calculate_factor_shift before.features after.features "external"
    concrete_delta := calculate_factor_shift before.features after.features "concrete"
    pattern_change := before.pattern ++ " -> " ++ after.pattern }

/-- The `for i in range(1, len(all_responses))` loop over adjacent pairs. -/
def pairShifts : List Response → List DimensionalShift
  | [] => []
  | [_] => []
  | a :: b :: rest => mkShift a b :: pairShifts (b :: rest)

/-- The in-place `resp['task_type'] = task_type` writes hit the dict bound
to key `t`, i.e. the first binding of `t`. -/
def tagFirst (t : String) : List (String × List Response) → List (String × List Response)
  | [] => []
  | (k, rs) :: rest =>
      if k = t then (k, tagResponses t rs) :: rest else (k, rs) :: tagFirst t rest

/-- `calculate_dimensional_shifts` (tide_analyzer.py lines 65-99) as a
state-passing function: the returned shift list, plus the session as
mutated by the `task_type` writes performed during flattening. -/
def calculate_dimensional_shifts (s : Session) : List DimensionalShift × Session :=
  (pairShifts (flattenResponses s),
   ⟨task_types.foldl (fun acc t => tagFirst t acc) s.responses⟩)

/-- Spec-side group mean for C1: "the mean of the response's features in
that group, with any feature absent from a vector counted as 0". -/
def specGroupMean (fv : FeatureVec) (g : List Feature) : ℚ :=
  (g.map fun f => fget fv f).sum / g.length

/-- Spec-side shift for one adjacent pair: each factor-group delta is the
after-mean minus the before-mean. -/
def mkShiftSpec (before after : Response) : DimensionalShift :=
  { transition := before.task_type.getD "" ++ " -> " ++ after.task_type.getD ""
    internal_delta :=
      specGroupMean after.features internal_features -
        specGroupMean before.features internal_features
    external_delta :=
      specGroupMean after.features external_features -
        specGroupMean before.features external_features
    concrete_delta :=
      specGroupMean after.features concrete_features -
        specGroupMean before.features concrete_features
    pattern_change := before.pattern ++ " -> " ++ after.pattern }

/-- First-occurrence de-duplication relative to an already-seen set. -/
def firstOccAux {α : Type} [DecidableEq α] (seen : List α) : List α → List α
  | [] => []
  | x :: xs => if x ∈ seen then firstOccAux seen xs else x :: firstOccAux (x :: seen) xs

/-- The distinct elements of a list in first-encounter order. -/
def firstOcc {α : Type} [DecidableEq α] (l : List α) : List α := firstOccAux [] l

/-- De-duplication by key relative to an already-seen key set. -/
def dedupKeysAux {α : Type} (seen : List String) : List (String × α) → List (String × α)
  | [] => []
  | p :: rest =>
      if p.1 ∈ seen then dedupKeysAux seen rest
      else p :: dedupKeysAux (p.1 :: seen) rest

/-- The `(key, value)` pairs a Python dict built from this association list
holds, in insertion order (`dict.items()`): each key's first binding. -/
def dedupKeys {α : Type} (l : List (String × α)) : List (String × α) := dedupKeysAux [] l

/-- One response's step of the trajectory-collection loop of
`track_feature_changes`: `for feature, value in resp['features'].items():
feature_trajectories[feature].append(value)`. The dict of lists is embedded
as a function from feature names to lists. (For a key outside the 14
canonical names the Python statement would raise `KeyError`; the embedding
instead extends the table, and no claim is settled at such a key.) -/
def trajStep (tr : Feature → List ℚ) (fv : FeatureVec) : Feature → List ℚ :=
  (dedupKeys fv).foldl
    (fun acc p => fun f => if p.1 = f then acc f ++ [p.2] else acc f) tr

/-- The `feature_trajectories` table built by `track_feature_changes`
(tide_analyzer.py lines 118-145): responses are visited in the canonical
flattening order and each response contributes the features its own vector
contains. -/
def feature_trajectories (s : Session) : Feature → List ℚ :=
  (flattenResponses s).foldl (fun tr r => trajStep tr r.features) fun _ => []

/-- The flattened `{'pattern': ..., 'task': ...}` records collected by
`analyze_pattern_signatures` (tide_analyzer.py lines 169-206), iterating
task types in the canonical order. -/
def patternRecords (s : Session) : List (String × String) :=
  (task_types.map fun t =>
    match getTask s t with
    | some rs => rs.map fun r => (r.pattern, t)
    | none => []).flatten

/-- The pattern labels of a session in canonical flattening order. -/
def patternsOf (s : Session) : List String := (patternRecords s).map Prod.fst

/-- One step `d[p] = d.get(p, 0) + 1` of the counting loop, on a dict kept
as an insertion-ordered association list. -/
def bump : List (String × Nat) → String → List (String × Nat)
  | [], p => [(p, 1)]
  | q :: rest, p => if q.1 = p then (q.1, q.2 + 1) :: rest else q :: bump rest p

/-- The `pattern_counts` dict built by `analyze_pattern_signatures`. -/
def countsOf (ps : List String) : List (String × Nat) := ps.foldl bump []

/-- `max(pattern_counts, key=pattern_counts.get)`: Python's `max` scans the
dict's keys in insertion order and keeps the earliest key among ties. -/
def maxKeyByVal : List (String × Nat) → Option String
  | [] => none
  | q :: rest =>
      some ((rest.foldl (fun best r => if r.2 > best.2 then r else best) q).1)

/-- `dominant_pattern` as returned by `analyze_pattern_signatures`. -/
def dominant_pattern (s : Session) : String :=
  (maxKeyByVal (countsOf (patternsOf s))).getD "None"

/-- `pattern_diversity = len(set(p['pattern'] for p in patterns))`. -/
def pattern_diversity (s : Session) : Nat := (firstOcc (patternsOf s)).length

/-- The maximum of the values of a count dict (0 on an empty dict). -/
def maxVal (l : List (String × Nat)) : Nat := (l.map Prod.snd).foldr max 0

/-- Spec side for C5: the maximum occurrence count over the labels in
first-encounter order. -/
def specMaxCount (ps : List String) : Nat := ((firstOcc ps).map ps.count).foldr max 0

/-- Spec side for C5: the first label, in order of first encounter, whose
occurrence count attains the maximum. -/
def dominantSpec (ps : List String) : Option String :=
  (firstOcc ps).find? fun p => ps.count p = specMaxCount ps

/-- `result['data']['responses'].values()` flattened: every response of a
session, in the map's insertion order. -/
def sessionResponsesAll (s : Session) : List Response :=
  (s.responses.map Prod.snd).flatten

/-- The per-response scores of one factor group collected over the whole
batch by `identify_dominant_processing_mode`. -/
def batchScores (batch : List Session) (group : List Feature) : List ℚ :=
  (batch.map fun s =>
    (sessionResponsesAll s).map fun r => factorScore r.features group).flatten

/-- `float(np.mean(scores)) if scores else 0.0` per factor group. -/
def avgScore (batch : List Session) (group : List Feature) : ℚ :=
  if batchScores batch group = [] then 0 else qmean (batchScores batch group)

/-- `identify_dominant_processing_mode` (tide_analyzer.py lines 359-390):
`max(avg_scores, key=avg_scores.get)` over a dict whose keys were inserted
in the order internal, external, concrete; Python's `max` keeps the first
key among ties. -/
def identify_dominant_processing_mode (batch : List Session) : String :=
  (([("external", avgScore batch external_features),
     ("concrete", avgScore batch concrete_features)]).foldl
    (fun best q => if q.2 > best.2 then q else best)
    ("internal", avgScore batch internal_features)).1

/-- The keys of a dict. -/
def keysOf {α : Type} (l : List (String × α)) : List String := l.map Prod.fst

/-- `all_features = set(features1.keys()) | set(features2.keys())`. A
Python set iterates in an unspecified order; every use below (dot products
and norms) is order-invariant, and the embedding fixes the first-encounter
order of the concatenated key lists. -/
def unionKeys (f1 f2 : FeatureVec) : List Feature := firstOcc (keysOf f1 ++ keysOf f2)

/-- `np.array([features.get(f, 0) for f in all_features])`. -/
def vecOver (fv : FeatureVec) (ks : List Feature) : List ℚ := ks.map (fget fv)

/-- Dot product of two equal-length rational vectors. -/
def dotQ (u v : List ℚ) : ℚ := (List.zipWith (· * ·) u v).sum

/-- `scipy.spatial.distance.cosine`: `1 - u·v/(‖u‖‖v‖)`, over the reals. -/
noncomputable def cosineDist (u v : List ℚ) : ℝ :=
  1 - (dotQ u v : ℝ) / (Real.sqrt ((dotQ u u : ℚ) : ℝ) * Real.sqrt ((dotQ v v : ℚ) : ℝ))

/-- `calculate_feature_similarity` (tide_analyzer.py lines 235-249):
similarity `1 - cosine(vec1, vec2)` over the union key space, guarded by
`np.any(vec1) and np.any(vec2)` (some nonzero entry); an all-zero vector
short-circuits to 0. The source's NaN guard is unreachable in real
arithmetic once the truthiness guard holds. -/
noncomputable def calculate_feature_similarity (f1 f2 : FeatureVec) : ℝ :=
  if ((vecOver f1 (unionKeys f1 f2)).any fun x => x ≠ 0) &&
      ((vecOver f2 (unionKeys f1 f2)).any fun x => x ≠ 0) then
    1 - cosineDist (vecOver f1 (unionKeys f1 f2)) (vecOver f2 (unionKeys f1 f2))
  else 0

/-- The ordered `(i, j), i < j` pairs visited by the nested similarity
loop of `calculate_coherence`. -/
def pairsOf {α : Type} : List α → List (α × α)
  | [] => []
  | x :: rest => (rest.map fun y => (x, y)) ++ pairsOf rest

/-- The `similarities` list for one task type's responses. -/
noncomputable def taskSimilarities (rs : List Response) : List ℝ :=
  (pairsOf rs).map fun p => calculate_feature_similarity p.1.features p.2.features

/-- `np.mean` over the reals. -/
noncomputable def rmean (l : List ℝ) : ℝ := l.sum / l.length

/-- The `alignment_scores` list of `calculate_dimensional_alignment`
(tide_analyzer.py lines 251-276): concrete responses scored against the
concrete group, then internal, then external. -/
def alignmentScores (s : Session) : List ℚ :=
  (match getTask s "concrete" with
   | some rs => rs.map fun r => factorScore r.features concrete_features
   | none => []) ++
  ((match getTask s "internal" with
   | some rs => rs.map fun r => factorScore r.features internal_features
   | none => []) ++
  (match getTask s "external" with
   | some rs => rs.map fun r => factorScore r.features external_features
   | none => []))

/-- `calculate_dimensional_alignment`: mean of the alignment scores, 0 if
none. -/
def calculate_dimensional_alignment (s : Session) : ℚ :=
  if (alignmentScores s).isEmpty then 0 else qmean (alignmentScores s)

/-- The `coherence_factors` list of `calculate_coherence` (lines 208-233):
one within-task similarity mean per canonical task type with at least two
responses (and a non-empty pair list), then the dimensional-alignment
factor, appended unconditionally. -/
noncomputable def coherence_factors (s : Session) : List ℝ :=
  ((task_types.map fun t =>
    match getTask s t with
    | some rs =>
        if 1 < rs.length then
          (if (taskSimilarities rs).isEmpty then [] else [rmean (taskSimilarities rs)])
        else []
    | none => []).flatten) ++ [((calculate_dimensional_alignment s : ℚ) : ℝ)]

/-- `calculate_coherence`: mean of the factors, 0 if there are none. -/
noncomputable def calculate_coherence (s : Session) : ℝ :=
  if (coherence_factors s).isEmpty then 0 else rmean (coherence_factors s)

/-- Spec side for C2: for a task type with at least 2 responses, the mean
pairwise cosine similarity over all unordered response pairs; otherwise no
factor. -/
noncomputable def specTaskFactor (rs : List Response) : Option ℝ :=
  if 2 ≤ rs.length then
    some (rmean ((pairsOf rs).map fun p =>
      calculate_feature_similarity p.1.features p.2.features))
  else none

/-- The factor group expected for a task type. -/
def groupOfTask (t : String) : List Feature :=
  if t = "concrete" then concrete_features
  else if t = "internal" then internal_features
  else external_features

/-- Spec side for C2: the mean over all responses (canonical flattening
order) of the mean feature score within the response's own task-type
group; 0 when the session has no responses. -/
noncomputable def specAlignment (s : Session) : ℝ :=
  if ((flattenResponses s).map fun r =>
      factorScore r.features (groupOfTask (r.task_type.getD ""))).isEmpty then 0
  else ((qmean ((flattenResponses s).map fun r =>
    factorScore r.features (groupOfTask (r.task_type.getD ""))) : ℚ) : ℝ)

/-- Spec side for C2: the coherence as the claim words it — the unweighted
mean of the per-task similarity factors plus the single alignment factor,
0 if no factor is computable. -/
noncomputable def coherenceSpec (s : Session) : ℝ :=
  if ((task_types.filterMap fun t =>
      match getTask s t with
      | some rs => specTaskFactor rs
      | none => none) ++ [specAlignment s]).isEmpty then 0
  else rmean ((task_types.filterMap fun t =>
    match getTask s t with
    | some rs => specTaskFactor rs
    | none => none) ++ [specAlignment s])

/-- `len(set(values)) == 1`: the list is non-empty and all values are
exactly equal. -/
def allSame (l : List ℚ) : Bool :=
  match l with
  | [] => false
  | x :: xs => xs.all fun y => y = x

/-- Pearson correlation over the reals:
`cov / (sqrt varx * sqrt vary)` with population sums. -/
noncomputable def pearson (xs ys : List ℝ) : ℝ :=
  ((xs.zip ys).map fun p => (p.1 - rmean xs) * (p.2 - rmean ys)).sum /
    (Real.sqrt ((xs.map fun x => (x - rmean xs) ^ 2).sum) *
      Real.sqrt ((ys.map fun y => (y - rmean ys) ^ 2).sum))

/-- `pearsonr(np.arange(len(values)), values)` as used by
`calculate_trend`. -/
noncomputable def trendCorrelation (values : List ℚ) : ℝ :=
  pearson ((List.range values.length).map fun i => (i : ℝ))
    (values.map fun q => (q : ℝ))

/-- `calculate_trend` (tide_analyzer.py lines 147-167). In real arithmetic
an undefined correlation (zero variance) evaluates to `0 / 0 = 0`, which
falls in the `stable` band - matching the source, whose except-handler and
NaN comparisons also yield `stable`. -/
noncomputable def calculate_trend (values : List ℚ) : String :=
  if values.length < 2 then "unknown"
  else if allSame values then "stable"
  else if trendCorrelation values > 0.3 then "increasing"
  else if trendCorrelation values < -0.3 then "decreasing"
  else "stable"

/-- `sorted(resp['features'].keys())`: the response's own key set, sorted
lexicographically. -/
def ownSortedKeys (fv : FeatureVec) : List Feature :=
  (keysOf (dedupKeys fv)).insertionSort (· ≤ ·)

/-- `feature_vec = [resp['features'].get(f, 0) for f in
sorted(resp['features'].keys())]` in `RSAEngine.create_feature_rdm`: each
response is vectorized over its OWN sorted key set only. -/
def ownSortedVec (fv : FeatureVec) : List ℚ := (ownSortedKeys fv).map (fget fv)

/-- The `all_features` vector list of `create_feature_rdm`, iterating
`session_data['responses'].values()` in insertion order. -/
def allFeatureVecs (s : Session) : List (List ℚ) :=
  (sessionResponsesAll s).map fun r => ownSortedVec r.features

/-- `RSAEngine.create_feature_rdm` (tide_analyzer.py lines 439-461): with
fewer than 2 responses an empty matrix; otherwise pairwise
`scipy.spatial.distance.cosine` fills a symmetric zero-diagonal matrix.
`Except.error` models the `ValueError` scipy raises when two of the
per-response vectors have different lengths (numpy cannot dot them);
cosine distance itself is embedded in real arithmetic (a zero vector,
which scipy would turn into NaN, divides to a finite value here - no claim
is settled on that case). -/
noncomputable def create_feature_rdm (s : Session) : Except String (List (List ℝ)) :=
  if (allFeatureVecs s).length < 2 then .ok []
  else if (allFeatureVecs s).all fun u => (allFeatureVecs s).all fun v =>
      u.length = v.length then
    .ok ((List.range (allFeatureVecs s).length).map fun i =>
      (List.range (allFeatureVecs s).length).map fun j =>
        if i = j then 0
        else cosineDist ((allFeatureVecs s).getD i []) ((allFeatureVecs s).getD j []))
  else .error "ValueError"

/-- One entry of the all-sessions batch consumed by
`calculate_comprehensive_stats` (create_scientific_summary.py): the
session's model name and, when its stored analysis carries one, its
coherence score. -/
structure SessionRec where
  model : String
  coherence : Option ℚ
deriving Repr, DecidableEq

/-- `unique_models`: the distinct model names (a Python set; embedded in
first-encounter order - every use is order-invariant). -/
def uniqueModels (b : List SessionRec) : List String :=
  firstOcc (b.map SessionRec.model)

/-- `coherence_by_model[m]`: model `m`'s coherence scores in batch order. -/
def coherenceOf (b : List SessionRec) (m : String) : List ℚ :=
  b.filterMap fun s => if s.model = m then s.coherence else none

/-- `model_groups` (the `if m in coherence_by_model` filter of the source
is vacuous: every unique model was given an entry when first seen). -/
def modelGroups (b : List SessionRec) : List (List ℚ) :=
  (uniqueModels b).map (coherenceOf b)

/-- The one-way ANOVA F statistic computed by `scipy.stats.f_oneway`:
`(SSB/(k-1)) / (SSW/(N-k))` with the grand mean over all samples. -/
def fOneWay (groups : List (List ℚ)) : ℚ :=
  ((groups.map fun g =>
      (g.length : ℚ) * (qmean g - qmean groups.flatten) ^ 2).sum /
    ((groups.length : ℚ) - 1)) /
  ((groups.map fun g => (g.map fun x => (x - qmean g) ^ 2).sum).sum /
    ((groups.flatten.length : ℚ) - (groups.length : ℚ)))

/-- The `statistical_tests['anova']` record. -/
structure AnovaReport where
  f_statistic : ℚ
  p_value : ℝ
  significant : Bool

/-- The ANOVA step of `calculate_comprehensive_stats`
(create_scientific_summary.py lines 147-157), parameterized by the
p-value function of `scipy.stats.f_oneway` (no claim depends on its
value). `none` models the `anova` key being absent from the output; both
source guards (the model-count/sample-count gate and the redundant
`all(len(g) > 0)` check) are kept. -/
noncomputable def statistical_tests_anova (pval : List (List ℚ) → ℝ)
    (b : List SessionRec) : Option AnovaReport :=
  if 2 ≤ (uniqueModels b).length ∧
      ∀ m ∈ uniqueModels b, 2 ≤ (coherenceOf b m).length then
    if ∀ g ∈ modelGroups b, 0 < g.length then
      some { f_statistic := fOneWay (modelGroups b)
             p_value := pval (modelGroups b)
             significant := if pval (modelGroups b) < 0.05 then true else false }
    else none
  else none

/-- The session-record fields untouched by the analyzer's writes:
forgetting the `task_type` key of a response. -/
def eraseTag (r : Response) : Response := { r with task_type := none }

/-- The net effect of `analyze_session` on its input session record: of
all the stages, only the flattening loop of `calculate_dimensional_shifts`
writes to the input (`resp['task_type'] = task_type`). -/
def analyze_session_mutated (s : Session) : Session :=
  (calculate_dimensional_shifts s).2

/-- A concrete response used as witness data. -/
def wRespA : Response :=
  { prompt := "p1", text := "t1",
    features := [("social", 1), ("visual", 2)], pattern := "CCDF" }

/-- A concrete response used as witness data. -/
def wRespB : Response :=
  { prompt := "p2", text := "t2", features := [("space", 1)], pattern := "AADF" }

/-- A session whose map lists `internal` before `concrete`. -/
def wSession1 : Session := ⟨[("internal", [wRespB]), ("concrete", [wRespA])]⟩

/-- The same bindings as `wSession1` in the opposite insertion order. -/
def wSession2 : Session := ⟨[("concrete", [wRespA]), ("internal", [wRespB])]⟩

/-- A session with a single response. -/
def wSessionSingle : Session := ⟨[("external", [wRespB])]⟩

/-- A concrete batch: two models with two coherence samples each. -/
def wBatch : List SessionRec :=
  [⟨"A", some 1⟩, ⟨"A", some 2⟩, ⟨"B", some 3⟩, ⟨"B", some 4⟩]

section Theorems

lemma mkShift_eq_spec (b a : Response) : mkShift b a = mkShiftSpec b a := by
  simp [mkShift, mkShiftSpec, calculate_factor_shift, factorScore, qmean,
    specGroupMean, groupOf]

lemma pairShifts_eq_zipWith (l : List Response) :
    pairShifts l = List.zipWith mkShift l l.tail := by
  induction l with
  | nil => rfl
  | cons a rest ih =>
      cases rest with
      | nil => rfl
      | cons b rest' => simpa [pairShifts] using ih

lemma flattenResponses_congr (s s' : Session)
    (h : ∀ t ∈ task_types, getTask s t = getTask s' t) :
    flattenResponses s = flattenResponses s' := by
  unfold flattenResponses
  congr 1
  exact List.map_congr_left fun t ht => by rw [h t ht]

lemma pairShifts_short (l : List Response) (h : l.length < 2) : pairShifts l = [] := by
  match l, h with
  | [], _ => rfl
  | [_], _ => rfl

lemma pairShifts_eq_zipWith_spec (l : List Response) :
    pairShifts l = List.zipWith mkShiftSpec l l.tail := by
  have hf : mkShift = mkShiftSpec := funext fun b => funext fun a => mkShift_eq_spec b a
  rw [pairShifts_eq_zipWith, hf]

/-- C1: `computeDimensionalShifts` flattens the responses by iterating task
types in the fixed canonical order (its output is determined by the map's
bindings at the three canonical keys, not by the map's own order); each
adjacent pair of the flattened list yields one shift whose per-group delta
is the after-mean minus the before-mean of that group's features (missing
features read as 0); fewer than 2 total responses give the empty sequence. -/
theorem C1_computeDimensionalShifts (s s' : Session)
    (h : ∀ t ∈ task_types, getTask s t = getTask s' t) :
    (calculate_dimensional_shifts s).1 = (calculate_dimensional_shifts s').1 ∧
    (calculate_dimensional_shifts s).1 =
      List.zipWith mkShiftSpec (flattenResponses s) (flattenResponses s).tail ∧
    ((flattenResponses s).length < 2 → (calculate_dimensional_shifts s).1 = []) := by
  refine ⟨?_, ?_, ?_⟩
  · show pairShifts (flattenResponses s) = pairShifts (flattenResponses s')
    rw [flattenResponses_congr s s' h]
  · exact pairShifts_eq_zipWith_spec (flattenResponses s)
  · exact fun hlen => pairShifts_short _ hlen

/-- Witness for C1 at concrete data: two session maps holding the same
bindings in opposite insertion orders produce the same shift sequence. -/
theorem C1_computeDimensionalShifts_witness :
    (calculate_dimensional_shifts wSession1).1 = (calculate_dimensional_shifts wSession2).1 :=
  (C1_computeDimensionalShifts wSession1 wSession2 (by decide)).1

lemma lookupKey_tagFirst (t t' : String) (l : List (String × List Response)) :
    lookupKey t' (tagFirst t l) =
      if t' = t then (lookupKey t l).map (tagResponses t) else lookupKey t' l := by
  induction l with
  | nil => simp [tagFirst, lookupKey]
  | cons p rest ih =>
      obtain ⟨k, rs⟩ := p
      by_cases hk : k = t
      · subst hk
        by_cases ht' : t' = k
        · subst ht'
          simp [tagFirst, lookupKey]
        · have hkt : ¬k = t' := fun h => ht' h.symm
          simp [tagFirst, lookupKey, ht', hkt]
      · by_cases ht' : k = t'
        · subst ht'
          simp [tagFirst, lookupKey, hk]
        · simp [tagFirst, lookupKey, hk, ht', ih]

lemma eraseMap_tagFirst (t : String) (l : List (String × List Response)) :
    ((tagFirst t l).map fun p => (p.1, p.2.map eraseTag)) =
      l.map fun p => (p.1, p.2.map eraseTag) := by
  induction l with
  | nil => rfl
  | cons p rest ih =>
      obtain ⟨k, rs⟩ := p
      by_cases hk : k = t
      · subst hk
        have h1 : tagFirst k ((k, rs) :: rest) = (k, tagResponses k rs) :: rest := by
          simp [tagFirst]
        rw [h1]
        simp only [List.map_cons, tagResponses, List.map_map]
        rfl
      · simp [tagFirst, hk, ih]

lemma mutated_responses (s : Session) :
    (analyze_session_mutated s).responses =
      tagFirst "external" (tagFirst "internal" (tagFirst "concrete" s.responses)) := rfl

/-- C9 (amended): running the session analysis mutates the input session in
exactly one way — every response list bound to one of the three canonical
task-type keys has each response's `task_type` field set to that key; every
other field, every key, and every binding at a non-canonical key is
unchanged. -/
theorem C9_analyze_session_mutation (s : Session) :
    ((analyze_session_mutated s).responses.map fun p => (p.1, p.2.map eraseTag)) =
      (s.responses.map fun p => (p.1, p.2.map eraseTag)) ∧
    (∀ t ∈ task_types, ∀ rs, getTask s t = some rs →
      getTask (analyze_session_mutated s) t = some (tagResponses t rs)) ∧
    (∀ t, t ∉ task_types → getTask (analyze_session_mutated s) t = getTask s t) := by
  refine ⟨?_, ?_, ?_⟩
  · rw [mutated_responses, eraseMap_tagFirst, eraseMap_tagFirst, eraseMap_tagFirst]
  · intro t ht rs hrs
    simp only [getTask] at hrs ⊢
    simp only [task_types, List.mem_cons, List.not_mem_nil, or_false] at ht
    rcases ht with rfl | rfl | rfl <;>
      simp [mutated_responses, lookupKey_tagFirst, hrs]
  · intro t ht
    simp only [task_types, List.mem_cons, List.not_mem_nil, or_false, not_or] at ht
    simp only [getTask]
    simp [mutated_responses, lookupKey_tagFirst, ht.1, ht.2.1, ht.2.2]

/-- C9 counterexample: on a concrete session whose responses carry no
`task_type` field, the analysis does change the input session record. -/
theorem C9_counterexample : analyze_session_mutated wSession1 ≠ wSession1 := by
  decide

/-- Witness for C9's amended statement at concrete data. -/
theorem C9_analyze_session_mutation_witness :
    getTask (analyze_session_mutated wSession1) "concrete" =
      some (tagResponses "concrete" [wRespA]) :=
  (C9_analyze_session_mutation wSession1).2.1 "concrete" (by decide) [wRespA] (by decide)

lemma trajFold_eq (l : List (Feature × ℚ)) (tr : Feature → List ℚ) (f : Feature) :
    (l.foldl (fun acc p => fun f' => if p.1 = f' then acc f' ++ [p.2] else acc f') tr) f =
      tr f ++ ((l.filter fun p => p.1 = f).map Prod.snd) := by
  induction l generalizing tr with
  | nil => simp
  | cons p rest ih =>
      by_cases hp : p.1 = f
      · simp [List.filter_cons, ih, hp]
      · simp [List.filter_cons, ih, hp]

lemma dedupKeysAux_proj {α : Type} (f : Feature) (l : List (String × α)) (seen : List String) :
    ((dedupKeysAux seen l).filter fun p => p.1 = f).map Prod.snd =
      if f ∈ seen then [] else (lookupKey f l).toList := by
  induction l generalizing seen with
  | nil => simp [dedupKeysAux, lookupKey]
  | cons p rest ih =>
      by_cases hp : p.1 ∈ seen
      · by_cases hf : f ∈ seen
        · simp [dedupKeysAux, hp, hf, ih]
        · have hne : ¬p.1 = f := fun h => hf (h ▸ hp)
          simp [dedupKeysAux, hp, hf, ih, lookupKey, hne]
      · by_cases hpf : p.1 = f
        · subst hpf
          simp [dedupKeysAux, hp, List.filter_cons, lookupKey, ih]
        · have hmem : f ∈ p.1 :: seen ↔ f ∈ seen := by
            constructor
            · intro h
              rcases List.mem_cons.mp h with h' | h'
              · exact absurd h'.symm hpf
              · exact h'
            · exact fun h => List.mem_cons_of_mem _ h
          simp [dedupKeysAux, hp, List.filter_cons, hpf, ih, lookupKey, hmem]

lemma trajStep_eq (tr : Feature → List ℚ) (fv : FeatureVec) (f : Feature) :
    trajStep tr fv f = tr f ++ (lookupKey f fv).toList := by
  rw [trajStep, trajFold_eq]
  rw [show dedupKeys fv = dedupKeysAux [] fv from rfl, dedupKeysAux_proj]
  simp

lemma trajectories_foldl_eq (rl : List Response) (tr : Feature → List ℚ) (f : Feature) :
    (rl.foldl (fun tr' r => trajStep tr' r.features) tr) f =
      tr f ++ (rl.filterMap fun r => lookupKey f r.features) := by
  induction rl generalizing tr with
  | nil => simp
  | cons r rest ih =>
      rw [List.foldl_cons, ih, trajStep_eq]
      cases h : lookupKey f r.features <;> simp [h, List.filterMap_cons]

lemma length_filterMap_isSome {α β : Type} (g : α → Option β) (l : List α) :
    (l.filterMap g).length = (l.filter fun a => (g a).isSome).length := by
  induction l with
  | nil => rfl
  | cons a rest ih => cases h : g a <;> simp [List.filterMap_cons, List.filter_cons, h, ih]

/-- C3 (amended): each feature's trajectory holds, in the canonical
flattening order, the feature's value from exactly those responses whose
own vector contains the feature — responses lacking the feature contribute
nothing (no 0 is appended), so the trajectory's length is the number of
responses containing the feature, not the session's total response count. -/
theorem C3_trackFeatureTrajectories (s : Session) (f : Feature) :
    feature_trajectories s f =
      ((flattenResponses s).filterMap fun r => lookupKey f r.features) ∧
    (feature_trajectories s f).length =
      ((flattenResponses s).filter fun r => (lookupKey f r.features).isSome).length := by
  have h : feature_trajectories s f =
      (flattenResponses s).filterMap fun r => lookupKey f r.features := by
    have := trajectories_foldl_eq (flattenResponses s) (fun _ => []) f
    simpa [feature_trajectories] using this
  exact ⟨h, by rw [h, length_filterMap_isSome]⟩

/-- C3 counterexample: in a concrete two-response session where only one
response's vector contains `social`, the `social` trajectory has length 1,
not one value per response (the claim demands length 2). -/
theorem C3_counterexample :
    ¬ ((feature_trajectories wSession1 "social").length
        = (flattenResponses wSession1).length) := by
  decide

lemma firstOccAux_mem {α : Type} [DecidableEq α] (seen : List α) (l : List α) (y : α) :
    y ∈ firstOccAux seen l ↔ y ∈ l ∧ y ∉ seen := by
  induction l generalizing seen with
  | nil => simp [firstOccAux]
  | cons x xs ih =>
      by_cases hx : x ∈ seen
      · rw [firstOccAux, if_pos hx, ih]
        constructor
        · exact fun ⟨h1, h2⟩ => ⟨List.mem_cons_of_mem _ h1, h2⟩
        · rintro ⟨h1, h2⟩
          rcases List.mem_cons.mp h1 with rfl | h1'
          · exact absurd hx h2
          · exact ⟨h1', h2⟩
      · rw [firstOccAux, if_neg hx]
        by_cases hy : y = x
        · subst hy
          simp [hx]
        · rw [List.mem_cons, ih]
          simp only [List.mem_cons, hy, false_or]

lemma firstOccAux_nodup {α : Type} [DecidableEq α] (seen : List α) (l : List α) :
    (firstOccAux seen l).Nodup := by
  induction l generalizing seen with
  | nil => simp [firstOccAux]
  | cons x xs ih =>
      by_cases hx : x ∈ seen
      · rw [firstOccAux, if_pos hx]; exact ih seen
      · rw [firstOccAux, if_neg hx]
        refine List.nodup_cons.mpr ⟨?_, ih (x :: seen)⟩
        intro hmem
        exact ((firstOccAux_mem _ _ _).mp hmem).2 (List.mem_cons_self x seen)

lemma firstOcc_mem {α : Type} [DecidableEq α] (l : List α) (y : α) :
    y ∈ firstOcc l ↔ y ∈ l := by
  rw [firstOcc, firstOccAux_mem]
  simp

lemma firstOcc_nodup {α : Type} [DecidableEq α] (l : List α) : (firstOcc l).Nodup :=
  firstOccAux_nodup [] l

lemma firstOccAux_snoc {α : Type} [DecidableEq α] (seen : List α) (xs : List α) (p : α) :
    firstOccAux seen (xs ++ [p]) =
      firstOccAux seen xs ++ (if p ∈ seen ∨ p ∈ xs then [] else [p]) := by
  induction xs generalizing seen with
  | nil => by_cases hp : p ∈ seen <;> simp [firstOccAux, hp]
  | cons x xs' ih =>
      by_cases hx : x ∈ seen
      · rw [List.cons_append, firstOccAux, if_pos hx, firstOccAux, if_pos hx, ih]
        by_cases hps : p ∈ seen
        · simp [hps]
        · by_cases hpx : p = x
          · subst hpx
            simp [hx, hps]
          · simp [hps, List.mem_cons, hpx]
      · rw [List.cons_append, firstOccAux, if_neg hx, firstOccAux, if_neg hx, ih]
        have hcond : (p ∈ x :: seen ∨ p ∈ xs') ↔ (p ∈ seen ∨ p ∈ x :: xs') := by
          simp [List.mem_cons]
          tauto
        by_cases hc : p ∈ x :: seen ∨ p ∈ xs'
        · rw [if_pos hc, if_pos (hcond.mp hc)]
          simp
        · rw [if_neg hc, if_neg (fun h => hc (hcond.mpr h))]
          simp

lemma firstOcc_snoc {α : Type} [DecidableEq α] (xs : List α) (p : α) :
    firstOcc (xs ++ [p]) = firstOcc xs ++ (if p ∈ xs then [] else [p]) := by
  rw [firstOcc, firstOccAux_snoc]
  simp [firstOcc]

lemma bump_map (l : List String) (hl : l.Nodup) (c : String → Nat) (p : String) :
    bump (l.map fun k => (k, c k)) p =
      if p ∈ l then l.map (fun k => (k, if k = p then c k + 1 else c k))
      else (l.map fun k => (k, c k)) ++ [(p, 1)] := by
  induction l with
  | nil => simp [bump]
  | cons x xs ih =>
      rw [List.map_cons, bump]
      by_cases hx : x = p
      · subst hx
        have hx' : x ∉ xs := (List.nodup_cons.mp hl).1
        rw [if_pos rfl, if_pos (List.mem_cons_self x xs), List.map_cons, if_pos rfl]
        congr 1
        refine (List.map_congr_left fun k hk => ?_).symm
        have hk' : ¬k = x := fun h => hx' (h ▸ hk)
        simp [hk']
      · rw [if_neg hx, ih (List.nodup_cons.mp hl).2]
        by_cases hp : p ∈ xs
        · rw [if_pos hp, if_pos (List.mem_cons_of_mem _ hp), List.map_cons, if_neg hx]
        · have hnotc : p ∉ x :: xs := by
            rw [List.mem_cons]
            rintro (rfl | h)
            · exact hx rfl
            · exact hp h
          rw [if_neg hp, if_neg hnotc, List.cons_append]

lemma countsOf_eq (ps : List String) :
    countsOf ps = (firstOcc ps).map fun k => (k, ps.count k) := by
  induction ps using List.reverseRecOn with
  | nil => rfl
  | append_singleton ps p ih =>
      rw [countsOf, List.foldl_append, List.foldl_cons, List.foldl_nil]
      rw [show ps.foldl bump [] = countsOf ps from rfl, ih]
      rw [bump_map (firstOcc ps) (firstOcc_nodup ps) _ p, firstOcc_snoc]
      by_cases hp : p ∈ ps
      · rw [if_pos ((firstOcc_mem ps p).mpr hp), if_pos hp]
        simp only [List.append_nil]
        refine List.map_congr_left fun k hk => ?_
        by_cases hkp : k = p
        · subst hkp
          simp [List.count_append]
        · simp [hkp, List.count_append,
            List.count_eq_zero.mpr (by simp [hkp] : k ∉ [p])]
      · rw [if_neg (fun h => hp ((firstOcc_mem ps p).mp h)), if_neg hp, List.map_append]
        congr 1
        · refine List.map_congr_left fun k hk => ?_
          have hkmem : k ∈ ps := (firstOcc_mem ps k).mp hk
          have hkp : ¬k = p := fun h => hp (h ▸ hkmem)
          simp [List.count_append, List.count_eq_zero.mpr (by simp [hkp] : k ∉ [p])]
        · simp [List.count_append, List.count_eq_zero.mpr hp]

lemma maxVal_cons (q : String × Nat) (l : List (String × Nat)) :
    maxVal (q :: l) = max q.2 (maxVal l) := rfl

lemma maxVal_attained (l : List (String × Nat)) (h : l ≠ []) :
    ∃ q ∈ l, q.2 = maxVal l := by
  induction l with
  | nil => exact absurd rfl h
  | cons q rest ih =>
      rcases eq_or_ne rest [] with rfl | hne
      · exact ⟨q, List.mem_cons_self _ _, by simp [maxVal]⟩
      · obtain ⟨r, hr, hrv⟩ := ih hne
        by_cases hc : maxVal rest ≤ q.2
        · refine ⟨q, List.mem_cons_self _ _, ?_⟩
          rw [maxVal_cons]
          omega
        · refine ⟨r, List.mem_cons_of_mem _ hr, ?_⟩
          rw [maxVal_cons]
          omega

lemma foldl_max_find (l : List (String × Nat)) (b : String × Nat) :
    l.foldl (fun best r => if r.2 > best.2 then r else best) b =
      ((b :: l).find? fun q => q.2 = maxVal (b :: l)).getD b := by
  induction l generalizing b with
  | nil =>
      rw [List.find?_cons_of_pos _ (by simp [maxVal])]
      rfl
  | cons r l' ih =>
      rw [List.foldl_cons]
      by_cases hr : r.2 > b.2
      · rw [if_pos hr, ih]
        have hM : maxVal (b :: r :: l') = maxVal (r :: l') := by
          rw [maxVal_cons, maxVal_cons]
          omega
        have hbM : ¬(b.2 = maxVal (r :: l')) := by
          rw [maxVal_cons]
          omega
        rw [hM, List.find?_cons_of_neg (r :: l')
          (show ¬((fun q : String × Nat => decide (q.2 = maxVal (r :: l'))) b = true) by
            simpa using hbM)]
        obtain ⟨q, hq, hqv⟩ := maxVal_attained (r :: l') (by simp)
        have hsome : ((r :: l').find? fun p => p.2 = maxVal (r :: l')).isSome :=
          List.find?_isSome.mpr ⟨q, hq, by simpa using hqv⟩
        obtain ⟨v, hv⟩ := Option.isSome_iff_exists.mp hsome
        rw [hv]
        rfl
      · rw [if_neg hr, ih]
        have hM : maxVal (b :: r :: l') = maxVal (b :: l') := by
          rw [maxVal_cons, maxVal_cons, maxVal_cons]
          omega
        rw [hM]
        by_cases hb : b.2 = maxVal (b :: l')
        · rw [List.find?_cons_of_pos _ (by simpa using hb),
            List.find?_cons_of_pos _ (by simpa using hb)]
        · have hrM : ¬(r.2 = maxVal (b :: l')) := by
            rw [maxVal_cons] at hb ⊢
            omega
          rw [List.find?_cons_of_neg (r :: l')
            (show ¬((fun q : String × Nat => decide (q.2 = maxVal (b :: l'))) b = true) by
              simpa using hb),
            List.find?_cons_of_neg l'
            (show ¬((fun q : String × Nat => decide (q.2 = maxVal (b :: l'))) b = true) by
              simpa using hb),
            List.find?_cons_of_neg l'
            (show ¬((fun q : String × Nat => decide (q.2 = maxVal (b :: l'))) r = true) by
              simpa using hrM)]

lemma maxKeyByVal_eq_find (l : List (String × Nat)) (hl : l ≠ []) :
    maxKeyByVal l = (l.find? fun q => q.2 = maxVal l).map Prod.fst := by
  obtain ⟨b, rest, rfl⟩ := List.exists_cons_of_ne_nil hl
  rw [maxKeyByVal, foldl_max_find]
  obtain ⟨q, hq, hqv⟩ := maxVal_attained (b :: rest) (by simp)
  have hsome : ((b :: rest).find? fun p => p.2 = maxVal (b :: rest)).isSome :=
    List.find?_isSome.mpr ⟨q, hq, by simpa using hqv⟩
  obtain ⟨v, hv⟩ := Option.isSome_iff_exists.mp hsome
  rw [hv]
  rfl

lemma maxKeyByVal_counts (ps : List String) (hps : ps ≠ []) :
    maxKeyByVal (countsOf ps) = dominantSpec ps := by
  have hfo : firstOcc ps ≠ [] := by
    cases ps with
    | nil => exact absurd rfl hps
    | cons a ps' =>
        intro h
        have ha : a ∈ firstOcc (a :: ps') :=
          (firstOcc_mem _ _).mpr (List.mem_cons_self _ _)
        rw [h] at ha
        exact List.not_mem_nil a ha
  have hnol : ((firstOcc ps).map fun k => (k, ps.count k)) ≠ [] := by
    intro h
    exact hfo (List.map_eq_nil_iff.mp h)
  have hM : maxVal ((firstOcc ps).map fun k => (k, ps.count k)) = specMaxCount ps := by
    rw [maxVal, specMaxCount, List.map_map]
    rfl
  rw [countsOf_eq, maxKeyByVal_eq_find _ hnol, hM, List.find?_map]
  have hcomp : ((fun q : String × Nat => decide (q.2 = specMaxCount ps)) ∘
      fun k => (k, ps.count k)) = fun k => decide (ps.count k = specMaxCount ps) := rfl
  rw [hcomp]
  rw [dominantSpec]
  cases hfind : (firstOcc ps).find? fun k => ps.count k = specMaxCount ps <;> rfl

/-- C5: for every non-empty session, the dominant pattern is the first
label, in order of first encounter during the canonical flattening, whose
occurrence count attains the maximum, and the pattern diversity is the
number of distinct pattern labels observed. -/
theorem C5_analyzePatternEvolution (s : Session) (h : patternsOf s ≠ []) :
    dominant_pattern s = (dominantSpec (patternsOf s)).getD "None" ∧
    pattern_diversity s = (patternsOf s).toFinset.card := by
  constructor
  · rw [dominant_pattern, maxKeyByVal_counts _ h]
  · rw [pattern_diversity, ← List.toFinset_card_of_nodup (firstOcc_nodup _)]
    congr 1
    ext x
    simp [List.mem_toFinset, firstOcc_mem]

/-- Witness for C5 at a concrete two-response session. -/
theorem C5_analyzePatternEvolution_witness :
    dominant_pattern wSession1 = (dominantSpec (patternsOf wSession1)).getD "None" :=
  (C5_analyzePatternEvolution wSession1 (by decide)).1

/-- C10: the dominant-processing-mode classification always returns one of
`internal`, `external`, `concrete`; ties go to the first maximal group in
the fixed order internal, external, concrete; in particular the empty
batch (all group means 0) yields `internal`. -/
theorem C10_dominantProcessingMode (batch : List Session) :
    (identify_dominant_processing_mode batch = "internal" ∨
      identify_dominant_processing_mode batch = "external" ∨
      identify_dominant_processing_mode batch = "concrete") ∧
    (identify_dominant_processing_mode batch = "internal" ↔
      avgScore batch external_features ≤ avgScore batch internal_features ∧
      avgScore batch concrete_features ≤ avgScore batch internal_features) ∧
    (identify_dominant_processing_mode batch = "external" ↔
      avgScore batch internal_features < avgScore batch external_features ∧
      avgScore batch concrete_features ≤ avgScore batch external_features) ∧
    (identify_dominant_processing_mode batch = "concrete" ↔
      avgScore batch internal_features < avgScore batch concrete_features ∧
      avgScore batch external_features < avgScore batch concrete_features) ∧
    identify_dominant_processing_mode [] = "internal" := by
  have hres : identify_dominant_processing_mode batch =
      if avgScore batch external_features > avgScore batch internal_features then
        (if avgScore batch concrete_features > avgScore batch external_features
          then "concrete" else "external")
      else
        (if avgScore batch concrete_features > avgScore batch internal_features
          then "concrete" else "internal") := by
    rw [identify_dominant_processing_mode, List.foldl_cons, List.foldl_cons,
      List.foldl_nil]
    dsimp only
    by_cases h1 : avgScore batch external_features > avgScore batch internal_features
    · rw [if_pos h1, if_pos h1]
      dsimp only
      by_cases h2 : avgScore batch concrete_features > avgScore batch external_features
      · rw [if_pos h2, if_pos h2]
      · rw [if_neg h2, if_neg h2]
    · rw [if_neg h1, if_neg h1]
      dsimp only
      by_cases h2 : avgScore batch concrete_features > avgScore batch internal_features
      · rw [if_pos h2, if_pos h2]
      · rw [if_neg h2, if_neg h2]
  refine ⟨?_, ?_, ?_, ?_, by decide⟩
  · rw [hres]
    split_ifs <;> simp
  · rw [hres]
    split_ifs with h1 h2 h2
    · exact iff_of_false (by decide) fun hc => by
        rcases hc with ⟨c1, _⟩
        exact absurd h1 (not_lt.mpr c1)
    · exact iff_of_false (by decide) fun hc => by
        rcases hc with ⟨c1, _⟩
        exact absurd h1 (not_lt.mpr c1)
    · exact iff_of_false (by decide) fun hc => by
        rcases hc with ⟨_, c2⟩
        exact absurd h2 (not_lt.mpr c2)
    · exact iff_of_true rfl ⟨not_lt.mp h1, not_lt.mp h2⟩
  · rw [hres]
    split_ifs with h1 h2 h2
    · exact iff_of_false (by decide) fun hc => by
        rcases hc with ⟨_, c2⟩
        exact absurd h2 (not_lt.mpr c2)
    · exact iff_of_true rfl ⟨h1, not_lt.mp h2⟩
    · exact iff_of_false (by decide) fun hc => by
        rcases hc with ⟨c1, _⟩
        exact absurd c1 (not_lt.mpr (le_of_not_lt h1))
    · exact iff_of_false (by decide) fun hc => by
        rcases hc with ⟨c1, _⟩
        exact absurd c1 (not_lt.mpr (le_of_not_lt h1))
  · rw [hres]
    split_ifs with h1 h2 h2
    · exact iff_of_true rfl ⟨lt_trans h1 h2, h2⟩
    · exact iff_of_false (by decide) fun hc => by
        rcases hc with ⟨_, c2⟩
        exact absurd c2 (not_lt.mpr (le_of_not_lt h2))
    · exact iff_of_true rfl ⟨h2, lt_of_le_of_lt (le_of_not_lt h1) h2⟩
    · exact iff_of_false (by decide) fun hc => by
        rcases hc with ⟨c1, _⟩
        exact absurd c1 (not_lt.mpr (le_of_not_lt h2))

lemma lookupKey_eq_none {α : Type} (f : String) (l : List (String × α)) :
    lookupKey f l = none ↔ f ∉ keysOf l := by
  induction l with
  | nil => simp [lookupKey, keysOf]
  | cons p rest ih =>
      by_cases hp : p.1 = f
      · simp [lookupKey, hp, keysOf]
      · have hfp : ¬f = p.1 := fun h => hp h.symm
        rw [lookupKey, if_neg hp, ih]
        simp [keysOf, hfp]

lemma dotQ_self_cons (x : ℚ) (xs : List ℚ) :
    dotQ (x :: xs) (x :: xs) = x * x + dotQ xs xs := by
  simp [dotQ]

lemma dotQ_self_nonneg (v : List ℚ) : 0 ≤ dotQ v v := by
  induction v with
  | nil => simp [dotQ]
  | cons x xs ih =>
      rw [dotQ_self_cons]
      exact add_nonneg (mul_self_nonneg x) ih

lemma dotQ_self_pos (v : List ℚ) (h : ∃ x ∈ v, x ≠ 0) : 0 < dotQ v v := by
  induction v with
  | nil =>
      obtain ⟨x, hx, _⟩ := h
      exact absurd hx (List.not_mem_nil x)
  | cons y xs ih =>
      rw [dotQ_self_cons]
      obtain ⟨x, hx, hxne⟩ := h
      rcases List.mem_cons.mp hx with rfl | hx'
      · exact add_pos_of_pos_of_nonneg (mul_self_pos.mpr hxne) (dotQ_self_nonneg xs)
      · exact add_pos_of_nonneg_of_pos (mul_self_nonneg y) (ih ⟨x, hx', hxne⟩)

/-- C6 (amended): two feature dicts with identical key/value pairs whose
materialized vector has at least one nonzero value get cosine similarity
exactly 1. -/
theorem C6_cosineIdentical (fv : FeatureVec) (h : ∃ f, fget fv f ≠ 0) :
    calculate_feature_similarity fv fv = 1 := by
  obtain ⟨f₀, hf₀⟩ := h
  have hmem : f₀ ∈ keysOf fv := by
    by_contra hno
    rw [fget, (lookupKey_eq_none f₀ fv).mpr hno] at hf₀
    exact hf₀ rfl
  have hks : f₀ ∈ unionKeys fv fv := by
    rw [unionKeys, firstOcc_mem]
    exact List.mem_append.mpr (Or.inl hmem)
  have hentry : fget fv f₀ ∈ vecOver fv (unionKeys fv fv) :=
    List.mem_map_of_mem _ hks
  have hany : ((vecOver fv (unionKeys fv fv)).any fun x => decide (x ≠ 0)) = true :=
    List.any_eq_true.mpr ⟨fget fv f₀, hentry, by simpa using hf₀⟩
  have hpos : 0 < dotQ (vecOver fv (unionKeys fv fv)) (vecOver fv (unionKeys fv fv)) :=
    dotQ_self_pos _ ⟨fget fv f₀, hentry, hf₀⟩
  rw [calculate_feature_similarity, if_pos (by rw [hany]; rfl), cosineDist]
  have hc : (0 : ℝ) < ((dotQ (vecOver fv (unionKeys fv fv))
      (vecOver fv (unionKeys fv fv)) : ℚ) : ℝ) := by
    exact_mod_cast hpos
  rw [Real.mul_self_sqrt hc.le, div_self hc.ne.symm]
  ring

/-- Witness for C6's amended statement: a concrete singleton dict with a
nonzero value has self-similarity 1. -/
theorem C6_cosineIdentical_witness :
    calculate_feature_similarity [("social", 1)] [("social", 1)] = 1 :=
  C6_cosineIdentical [("social", 1)] ⟨"social", by decide⟩

/-- C6 counterexample: two identical all-zero feature dicts get similarity
0, not the 1.0 the claim demands. -/
theorem C6_counterexample :
    calculate_feature_similarity [("social", 0)] [("social", 0)] = 0 := by
  rw [calculate_feature_similarity, if_neg (by decide)]

lemma flatten_map_toList {α β : Type} (g : α → Option β) (l : List α) :
    (l.map fun a => (g a).toList).flatten = l.filterMap g := by
  induction l with
  | nil => rfl
  | cons a rest ih =>
      cases h : g a <;> simp [List.filterMap_cons, h, ih]

lemma pairsOf_ne_nil {α : Type} (l : List α) (h : 2 ≤ l.length) : pairsOf l ≠ [] := by
  match l, h with
  | a :: b :: t, _ => simp [pairsOf]

lemma taskFactor_component (s : Session) (t : String) :
    (match getTask s t with
      | some rs =>
          if 1 < rs.length then
            (if (taskSimilarities rs).isEmpty then []
              else [rmean (taskSimilarities rs)])
          else []
      | none => []) =
      (match getTask s t with
        | some rs => specTaskFactor rs
        | none => none).toList := by
  cases hg : getTask s t with
  | none => rfl
  | some rs =>
      dsimp only
      by_cases hlen : 1 < rs.length
      · have hpe : pairsOf rs ≠ [] := pairsOf_ne_nil rs hlen
        rw [specTaskFactor, if_pos (show 2 ≤ rs.length from hlen)]
        simp [hlen, taskSimilarities, hpe]
      · rw [specTaskFactor, if_neg (show ¬2 ≤ rs.length from hlen)]
        simp [hlen]

lemma alignmentScores_eq (s : Session) :
    alignmentScores s = (flattenResponses s).map fun r =>
      factorScore r.features (groupOfTask (r.task_type.getD "")) := by
  rw [flattenResponses, task_types, alignmentScores]
  simp only [List.map_cons, List.map_nil, List.flatten_cons, List.flatten_nil,
    List.map_append, List.append_nil]
  congr 1
  · cases hg : getTask s "concrete" with
    | none => rfl
    | some rs => simp [tagResponses, List.map_map, groupOfTask]
  congr 1
  · cases hg : getTask s "internal" with
    | none => rfl
    | some rs => simp [tagResponses, List.map_map, groupOfTask]
  · cases hg : getTask s "external" with
    | none => rfl
    | some rs => simp [tagResponses, List.map_map, groupOfTask]

lemma alignment_cast (s : Session) :
    ((calculate_dimensional_alignment s : ℚ) : ℝ) = specAlignment s := by
  rw [calculate_dimensional_alignment, specAlignment, ← alignmentScores_eq]
  by_cases he : (alignmentScores s).isEmpty
  · rw [if_pos he, if_pos he]
    norm_num
  · rw [if_neg he, if_neg he]

/-- C2: the coherence score is exactly the unweighted mean of: one factor
per canonical task type with at least 2 responses (the mean pairwise
cosine similarity over its unordered response pairs), plus the single
dimensional-alignment factor (the mean over all responses of the mean
feature score in the response's own task-type group); 0 when no factor is
computable. -/
theorem C2_computeCoherence (s : Session) : calculate_coherence s = coherenceSpec s := by
  have hfac : coherence_factors s =
      (task_types.filterMap fun t =>
        match getTask s t with
        | some rs => specTaskFactor rs
        | none => none) ++ [specAlignment s] := by
    rw [coherence_factors, ← flatten_map_toList]
    congr 1
    · congr 1
      exact List.map_congr_left fun t ht => taskFactor_component s t
    · rw [alignment_cast]
  rw [calculate_coherence, coherenceSpec, hfac]

lemma trendCorrelation_inc :
    trendCorrelation [1/10, 2/10, 3/10, 4/10, 5/10] = 1 := by
  have hx : ((List.range ([1/10, 2/10, 3/10, 4/10, 5/10] : List ℚ).length).map
      fun i => (i : ℝ)) = [0, 1, 2, 3, 4] := by
    norm_num [List.range_succ]
  have hy : (([1/10, 2/10, 3/10, 4/10, 5/10] : List ℚ).map fun q => (q : ℝ)) =
      [1/10, 2/10, 3/10, 4/10, 5/10] := by
    norm_num
  rw [trendCorrelation, hx, hy, pearson]
  have hmx : rmean [(0 : ℝ), 1, 2, 3, 4] = 2 := by norm_num [rmean]
  have hmy : rmean [(1 : ℝ)/10, 2/10, 3/10, 4/10, 5/10] = 3/10 := by
    norm_num [rmean]
  rw [hmx, hmy]
  have hnum : (([(0 : ℝ), 1, 2, 3, 4].zip [(1 : ℝ)/10, 2/10, 3/10, 4/10, 5/10]).map
      fun p => (p.1 - 2) * (p.2 - 3/10)).sum = 1 := by
    norm_num [List.zip, List.zipWith]
  have hvx : (([(0 : ℝ), 1, 2, 3, 4]).map fun x => (x - 2) ^ 2).sum = 10 := by
    norm_num
  have hvy : (([(1 : ℝ)/10, 2/10, 3/10, 4/10, 5/10]).map
      fun y => (y - 3/10) ^ 2).sum = 1/10 := by
    norm_num
  rw [hnum, hvx, hvy, ← Real.sqrt_mul (by norm_num : (0 : ℝ) ≤ 10)]
  norm_num

lemma trendCorrelation_dec :
    trendCorrelation [5/10, 4/10, 3/10, 2/10, 1/10] = -1 := by
  have hx : ((List.range ([5/10, 4/10, 3/10, 2/10, 1/10] : List ℚ).length).map
      fun i => (i : ℝ)) = [0, 1, 2, 3, 4] := by
    norm_num [List.range_succ]
  have hy : (([5/10, 4/10, 3/10, 2/10, 1/10] : List ℚ).map fun q => (q : ℝ)) =
      [5/10, 4/10, 3/10, 2/10, 1/10] := by
    norm_num
  rw [trendCorrelation, hx, hy, pearson]
  have hmx : rmean [(0 : ℝ), 1, 2, 3, 4] = 2 := by norm_num [rmean]
  have hmy : rmean [(5 : ℝ)/10, 4/10, 3/10, 2/10, 1/10] = 3/10 := by
    norm_num [rmean]
  rw [hmx, hmy]
  have hnum : (([(0 : ℝ), 1, 2, 3, 4].zip [(5 : ℝ)/10, 4/10, 3/10, 2/10, 1/10]).map
      fun p => (p.1 - 2) * (p.2 - 3/10)).sum = -1 := by
    norm_num [List.zip, List.zipWith]
  have hvx : (([(0 : ℝ), 1, 2, 3, 4]).map fun x => (x - 2) ^ 2).sum = 10 := by
    norm_num
  have hvy : (([(5 : ℝ)/10, 4/10, 3/10, 2/10, 1/10]).map
      fun y => (y - 3/10) ^ 2).sum = 1/10 := by
    norm_num
  rw [hnum, hvx, hvy, ← Real.sqrt_mul (by norm_num : (0 : ℝ) ≤ 10)]
  norm_num

/-- C4: for a trajectory with at least 2 points the trend is `stable`
whenever all values are exactly equal; otherwise it is `increasing` iff
the index/value Pearson correlation exceeds 0.3, `decreasing` iff it is
below -0.3, and `stable` otherwise; the spec's two worked examples hold. -/
theorem C4_trendClassification (values : List ℚ) (h : 2 ≤ values.length) :
    (allSame values = true → calculate_trend values = "stable") ∧
    (allSame values = false →
      ((calculate_trend values = "increasing" ↔ trendCorrelation values > 0.3) ∧
        (calculate_trend values = "decreasing" ↔ trendCorrelation values < -0.3) ∧
        (calculate_trend values = "stable" ↔
          ¬trendCorrelation values > 0.3 ∧ ¬trendCorrelation values < -0.3))) ∧
    calculate_trend [1/10, 2/10, 3/10, 4/10, 5/10] = "increasing" ∧
    calculate_trend [5/10, 4/10, 3/10, 2/10, 1/10] = "decreasing" := by
  have hlen : ¬values.length < 2 := not_lt.mpr h
  refine ⟨?_, ?_, ?_, ?_⟩
  · intro hsame
    rw [calculate_trend, if_neg hlen, if_pos hsame]
  · intro hsame
    rw [calculate_trend, if_neg hlen, if_neg (by rw [hsame]; exact Bool.false_ne_true)]
    by_cases h1 : trendCorrelation values > 0.3
    · rw [if_pos h1]
      exact ⟨iff_of_true rfl h1,
        iff_of_false (by decide) (fun hc => absurd h1 (not_lt.mpr (by linarith))),
        iff_of_false (by decide) (fun hc => hc.1 h1)⟩
    · rw [if_neg h1]
      by_cases h2 : trendCorrelation values < -0.3
      · rw [if_pos h2]
        exact ⟨iff_of_false (by decide) h1, iff_of_true rfl h2,
          iff_of_false (by decide) (fun hc => hc.2 h2)⟩
      · rw [if_neg h2]
        exact ⟨iff_of_false (by decide) h1, iff_of_false (by decide) h2,
          iff_of_true rfl ⟨h1, h2⟩⟩
  · rw [calculate_trend, if_neg (by decide),
      if_neg (by norm_num [allSame, List.all_cons, List.all_nil]),
      if_pos (by rw [trendCorrelation_inc]; norm_num)]
  · rw [calculate_trend, if_neg (by decide),
      if_neg (by norm_num [allSame, List.all_cons, List.all_nil]),
      if_neg (by rw [trendCorrelation_dec]; norm_num),
      if_pos (by rw [trendCorrelation_dec]; norm_num)]

/-- Witness for C4 at a concrete all-equal two-point trajectory. -/
theorem C4_trendClassification_witness : calculate_trend [1, 1] = "stable" :=
  (C4_trendClassification [1, 1] (by decide)).1 (by decide)

/-- C7 is refuted on the code: `create_feature_rdm` vectorizes each
response over its own sorted key set, so a session whose responses carry
different key sets feeds different-length vectors to `scipy.cosine`,
which raises `ValueError` instead of filling the matrix. -/
theorem C7_featureRDM_raises : create_feature_rdm wSession1 = .error "ValueError" := by
  have hlenB : (ownSortedVec wRespB.features).length = 1 := by
    rw [ownSortedVec, List.length_map, ownSortedKeys, List.length_insertionSort]
    decide
  have hlenA : (ownSortedVec wRespA.features).length = 2 := by
    rw [ownSortedVec, List.length_map, ownSortedKeys, List.length_insertionSort]
    decide
  have hvecs : allFeatureVecs wSession1 =
      [ownSortedVec wRespB.features, ownSortedVec wRespA.features] := rfl
  rw [create_feature_rdm, if_neg (by rw [hvecs]; decide),
    if_neg (by rw [hvecs]; simp [List.all_cons, List.all_nil, hlenA, hlenB])]

/-- C8: the ANOVA over per-model coherence groups is reported exactly when
at least 2 distinct models exist and every model has at least 2 coherence
samples (the source's inner `all(len(g) > 0)` guard is implied); the
report carries the F statistic over the model groups, the p-value, and
`significant` iff `p < 0.05`; outside the precondition the key is absent
and nothing is raised. Quantified over any p-value function. -/
theorem C8_anovaGate (pval : List (List ℚ) → ℝ) (b : List SessionRec) :
    (statistical_tests_anova pval b = none ↔
      ¬(2 ≤ (uniqueModels b).length ∧
        ∀ m ∈ uniqueModels b, 2 ≤ (coherenceOf b m).length)) ∧
    ((2 ≤ (uniqueModels b).length ∧
        ∀ m ∈ uniqueModels b, 2 ≤ (coherenceOf b m).length) →
      ∃ r, statistical_tests_anova pval b = some r ∧
        r.f_statistic = fOneWay (modelGroups b) ∧
        r.p_value = pval (modelGroups b) ∧
        (r.significant = true ↔ r.p_value < 0.05)) := by
  have hinner : (2 ≤ (uniqueModels b).length ∧
      ∀ m ∈ uniqueModels b, 2 ≤ (coherenceOf b m).length) →
      ∀ g ∈ modelGroups b, 0 < g.length := by
    rintro ⟨-, hall⟩ g hg
    rw [modelGroups] at hg
    obtain ⟨m, hm, rfl⟩ := List.mem_map.mp hg
    calc (0 : ℕ) < 2 := by norm_num
      _ ≤ (coherenceOf b m).length := hall m hm
  constructor
  · constructor
    · intro hnone hgate
      rw [statistical_tests_anova, if_pos hgate, if_pos (hinner hgate)] at hnone
      exact Option.noConfusion hnone
    · intro hgate
      rw [statistical_tests_anova, if_neg hgate]
  · intro hgate
    refine ⟨{ f_statistic := fOneWay (modelGroups b)
              p_value := pval (modelGroups b)
              significant := if pval (modelGroups b) < 0.05 then true else false },
      ?_, rfl, rfl, ?_⟩
    · rw [statistical_tests_anova, if_pos hgate, if_pos (hinner hgate)]
    · by_cases hp : pval (modelGroups b) < 0.05
      · simp [hp]
      · simp [hp]

/-- Witness for C8 at a concrete two-model batch with two samples each:
the ANOVA report is present. -/
theorem C8_anovaGate_witness :
    statistical_tests_anova (fun _ => 0) wBatch ≠ none := by
  obtain ⟨r, hr, -, -, -⟩ := (C8_anovaGate (fun _ => 0) wBatch).2 (by decide)
  rw [hr]
  simp

end Theorems

end TIDE
